import Mathlib

/-!
Verification development for the text-to-speech bridge pipeline of
`src/components/DatabaseBridge.tsx` (canonical first variant of the component):
the sentence segmenter `segmentText`, the queue consumer `processQueueLoop`,
the ingestion handler `processNewData`, the idle watchdog interval body, and
the connection-reset logic of the main effect.

Conventions of the shallow embedding:
* JavaScript strings are Lean `String`s (`List Char` underneath); all inputs of
  interest are ASCII, so UTF-16 length and codepoint length agree.
* Timestamps (`Date.now()`) are `Int` milliseconds supplied as parameters.
* The nondeterministic/environmental inputs of a loop run (`client.status`,
  `Math.random()` draws, whether `client.send` throws, `Date.now()`) are an
  explicit oracle `LoopEnv`, sampled once per while-iteration.
* A thrown exception from `client.send` is modelled as data (`failed` field):
  the source catches it (`catch`/`finally`), so the run is a total function.
* `Intl.Segmenter` is a host facility; the embedding models the deterministic
  regex fallback path of the source (lines 39-54).  The chunk-folding stage
  (lines 56-98) is identical on both paths, and the chunk-level theorems are
  proved for arbitrary sentence lists.
* Observability side effects (`console.log`, `addTurn`) are not modelled.
-/

/-- Whitespace class of JavaScript (`\s`, also the set removed by
`String.prototype.trim`), restricted to the code points it actually contains. -/
def isJsWS (c : Char) : Bool :=
  c.val = 32 || c.val = 9 || c.val = 10 || c.val = 13 || c.val = 11 ||
  c.val = 12 || c.val = 160 || c.val = 0x1680 ||
  (0x2000 ≤ c.val && c.val ≤ 0x200a) || c.val = 0x2028 || c.val = 0x2029 ||
  c.val = 0x202f || c.val = 0x205f || c.val = 0x3000 || c.val = 0xfeff

/-- JavaScript `String.prototype.trim` on the underlying character list:
drop leading and trailing whitespace. -/
def trimChars (l : List Char) : List Char :=
  List.rdropWhile isJsWS (List.dropWhile isJsWS l)

/-- JavaScript `text.trim()`. -/
def jsTrim (s : String) : String :=
  String.mk (trimChars s.data)

/-- ASCII letter. -/
def isAsciiLetter (c : Char) : Bool :=
  ('a' ≤ c && c ≤ 'z') || ('A' ≤ c && c ≤ 'Z')

/-- ASCII digit. -/
def isDigitCh (c : Char) : Bool :=
  '0' ≤ c && c ≤ '9'

/-- Character class `[A-Z]` of the dialogue regex. -/
def isUpperAZ (c : Char) : Bool :=
  'A' ≤ c && c ≤ 'Z'

/-- JavaScript word character (`\w`), used for the `\b` boundary in the
abbreviation-masking regex. -/
def isWordChar (c : Char) : Bool :=
  isAsciiLetter c || isDigitCh c || c = '_'

/-- Character class `[a-zA-Z0-9\s\(\)]` of the dialogue-start regex. -/
def dialogueClass (c : Char) : Bool :=
  isAsciiLetter c || isDigitCh c || isJsWS c || c = '(' || c = ')'

/-- Scanner for the tail of `/^([A-Z][a-zA-Z0-9\s\(\)]+):/` after the initial
capital: the regex matches iff a nonempty run of class characters is followed
by a colon.  The colon is not in the class, so greedy matching with
backtracking reduces to this scan; `seen` records whether at least one class
character has been consumed. -/
def dialogueScan : List Char → Bool → Bool
  | [], _ => false
  | c :: cs, seen =>
    if c = ':' then seen
    else if dialogueClass c then dialogueScan cs true
    else false

/-- Test of `/^([A-Z][a-zA-Z0-9\s\(\)]+):/` (the `charRegex` of `segmentText`,
also the `isDialogue` test of `processQueueLoop`). -/
def isDialogueChars : List Char → Bool
  | [] => false
  | c :: cs => isUpperAZ c && dialogueScan cs false

/-- String wrapper for the dialogue-start test. -/
def isDialogueS (s : String) : Bool :=
  isDialogueChars s.data

/-- After a `<`, the regex `/<[^>]+>/` needs a nonempty run of non-`>`
characters followed by `>`. -/
def afterLt : List Char → Bool
  | [] => false
  | c :: cs => c ≠ '>' && cs.contains '>'

/-- Test of `/<[^>]+>/` (the `hasSSML` test of `processQueueLoop`). -/
def hasSSMLChars : List Char → Bool
  | [] => false
  | c :: cs => (c = '<' && afterLt cs) || hasSSMLChars cs

/-- String wrapper for the embedded-markup test. -/
def hasSSMLS (s : String) : Bool :=
  hasSSMLChars s.data

/-- The `\u0000` placeholder used by the abbreviation masking. -/
def nulChar : Char := Char.ofNat 0

/-- Double-quote character, part of the `["']?` class of the splitting regex. -/
def quoteDbl : Char := Char.ofNat 34

/-- Single-quote character, part of the `["']?` class of the splitting regex. -/
def quoteSgl : Char := Char.ofNat 39

/-- Strip a literal token from the front of a character list, returning the
remainder on success. -/
def stripTok : List Char → List Char → Option (List Char)
  | [], cs => some cs
  | _ :: _, [] => none
  | t :: ts, c :: cs => if c = t then stripTok ts cs else none

/-- Alternation `(Mr|Mrs|Ms|Dr|Prof|Rev|Gen|Sen|Rep|Gov|St|Mt)` in source
order; JavaScript tries the alternatives left to right. -/
def titleTokens : List (List Char) :=
  ["Mr", "Mrs", "Ms", "Dr", "Prof", "Rev", "Gen", "Sen", "Rep", "Gov",
   "St", "Mt"].map String.data

/-- Find the first alternation token that, followed by a period, is a prefix
of the input; return the token and the rest after the period. -/
def findTitle : List (List Char) → List Char → Option (List Char × List Char)
  | [], _ => none
  | t :: ts, cs =>
    match stripTok (t ++ ['.']) cs with
    | some rest => some (t, rest)
    | none => findTitle ts cs

/-- Scan for `/\b(Mr|Mrs|Ms|Dr|Prof|Rev|Gen|Sen|Rep|Gov|St|Mt)\./g`, replacing
each match `T.` by `T\u0000`.  `prevW` tracks whether the previous character
of the original string was a word character (`\b` requires it not to be).
The fuel argument is the length of the remaining input; each step consumes at
least one character, so the fuel never runs out when initialised that way. -/
def maskTitlesF : Nat → Bool → List Char → List Char
  | 0, _, cs => cs
  | _ + 1, _, [] => []
  | f + 1, prevW, c :: cs =>
    if prevW then c :: maskTitlesF f (isWordChar c) cs
    else
      match findTitle titleTokens (c :: cs) with
      | some (t, rest) => (t ++ [nulChar]) ++ maskTitlesF f false rest
      | none => c :: maskTitlesF f (isWordChar c) cs

/-- Global literal replacement (JavaScript `replace` with a literal-only
global regex): scan left to right, never rescanning replaced output.  Fuelled
by the input length like `maskTitlesF`. -/
def replaceLitF (pat sub : List Char) : Nat → List Char → List Char
  | 0, cs => cs
  | _ + 1, [] => []
  | f + 1, c :: cs =>
    match stripTok pat (c :: cs) with
    | some rest => sub ++ replaceLitF pat sub f rest
    | none => c :: replaceLitF pat sub f cs

/-- The abbreviation-masking pipeline of `segmentText` (lines 43-47): title
abbreviations with a word boundary, then `e.g.`, `i.e.` and `No.` literally. -/
def maskAbbrevs (l : List Char) : List Char :=
  let l1 := maskTitlesF l.length false l
  let l2 := replaceLitF "e.g.".data ("e".data ++ [nulChar] ++ "g".data ++ [nulChar]) l1.length l1
  let l3 := replaceLitF "i.e.".data ("i".data ++ [nulChar] ++ "e".data ++ [nulChar]) l2.length l2
  replaceLitF "No.".data ("No".data ++ [nulChar]) l3.length l3

/-- Sentence-terminator class `[.!?]`. -/
def isTermCh (c : Char) : Bool :=
  c = '.' || c = '!' || c = '?'

/-- Matches of `/[^.!?]+[.!?]+["']?|[^.!?]+$/g`: each match is a nonempty run
of non-terminators followed by a run of terminators and an optional quote, or
a final terminator-less run.  Terminator characters that cannot start a match
are skipped, as the JavaScript engine does.  Fuelled by the input length. -/
def splitSF : Nat → List Char → List (List Char)
  | 0, _ => []
  | _ + 1, [] => []
  | f + 1, c :: cs =>
    if isTermCh c then splitSF f cs
    else
      let body := List.takeWhile (fun x => !isTermCh x) (c :: cs)
      let rest1 := List.dropWhile (fun x => !isTermCh x) (c :: cs)
      match rest1 with
      | [] => [body]
      | _ :: _ =>
        let terms := List.takeWhile isTermCh rest1
        let rest2 := List.dropWhile isTermCh rest1
        match rest2 with
        | [] => [body ++ terms]
        | q :: rest3 =>
          if q = quoteDbl || q = quoteSgl then
            (body ++ terms ++ [q]) :: splitSF f rest3
          else
            (body ++ terms) :: splitSF f (q :: rest3)

/-- Unmasking step `s.replace(/\u0000/g, '.')`. -/
def unmaskChar (c : Char) : Char :=
  if c = nulChar then '.' else c

/-- The fallback sentence splitter of `segmentText` (lines 40-54): mask
abbreviations, split on sentence terminators, fall back to the whole original
text when there is no match, unmask. -/
def sentencesOfChars (text : List Char) : List (List Char) :=
  let masked := maskAbbrevs text
  let ms := splitSF masked.length masked
  let ms2 := if ms.isEmpty then [text] else ms
  ms2.map (List.map unmaskChar)

/-- String-level sentence list of an input text. -/
def sentencesOf (text : String) : List String :=
  (sentencesOfChars text.data).map String.mk

/-- Soft chunk-length limit of `segmentText`. -/
def SOFT_LIMIT : Nat := 80

/-- Hard chunk-length limit of `segmentText`. -/
def HARD_LIMIT : Nat := 180

/-- One iteration of the chunk-folding loop of `segmentText` (lines 65-92):
the accumulator is the pair of flushed chunks and the current chunk buffer. -/
def chunkStep (acc : List String × String) (sentence : String) :
    List String × String :=
  let cleanSentence := jsTrim sentence
  if cleanSentence = "" then acc
  else if 0 < acc.2.length then
    if isDialogueS cleanSentence then (acc.1 ++ [jsTrim acc.2], cleanSentence)
    else if HARD_LIMIT < acc.2.length + cleanSentence.length then
      (acc.1 ++ [jsTrim acc.2], cleanSentence)
    else if SOFT_LIMIT < acc.2.length then
      (acc.1 ++ [jsTrim acc.2], cleanSentence)
    else (acc.1, acc.2 ++ " " ++ cleanSentence)
  else (acc.1, cleanSentence)

/-- Chunk folding over a sentence list, with the final-buffer flush
(lines 94-96). -/
def chunkSentences (sentences : List String) : List String :=
  let r := List.foldl chunkStep ([], "") sentences
  if jsTrim r.2 = "" then r.1 else r.1 ++ [jsTrim r.2]

/-- The segmenter `segmentText` (lines 21-99) on the regex-fallback path:
empty input yields no chunks, otherwise split into sentences and fold into
chunks. -/
def segmentText (text : String) : List String :=
  if text = "" then [] else chunkSentences (sentencesOf text)

/-- Voice styles of the settings store (`src/lib/state.ts`). -/
inductive VoiceStyle where
  | natural
  | breathy
  | dramatic
deriving DecidableEq, Repr

/-- The mutable state of the bridge component: the queue and dispatch flags
held in refs, the dedup ref, and the two language fields of the settings
store written through `setLanguage` / `setDetectedLanguage`. -/
structure BridgeState where
  queue : List String
  isProcessing : Bool
  shouldBuffer : Bool
  lastActivity : Int
  lastProcessedId : Option Int
  language : String
  detectedLanguage : Option String
deriving DecidableEq, Repr

/-- A row of the external `eburon_tts_current` record
(`EburonTTSCurrent` in `src/lib/supabase`). -/
structure EburonTTSCurrent where
  id : Int
  client_id : Option String
  source_text : String
  source_lang_code : Option String
  source_lang_label : Option String
  translated_text : Option String
  target_language : Option String
  updated_at : String
deriving DecidableEq, Repr

/-- Supported language labels (`src/lib/constants.ts`). -/
def SUPPORTED_LANGUAGES : List String :=
  ["Tagalog (Taglish)", "Tagalog", "English (US)", "English (UK)",
   "Spanish", "Japanese", "Korean"]

/-- The five filler directives of the watchdog catalog (lines 133-139). -/
def fillerSegments : List String :=
  ["[System: Silence. Do a \x27Shoutout Segment\x27. Read imaginary greetings from listeners like \x27Ate Girl from Cubao\x27 or \x27Kuya Joms from Dubai\x27. High energy!]",
   "[System: Silence. Do a \x27Joke Time\x27 segment. Throw a cheesy or funny pick-up line. Laugh at your own joke.]",
   "[System: Silence. Do a \x27Real Talk / Hugot\x27 segment. Give advice about love/relationships based on the previous story.]",
   "[System: Silence. Tease the next part of the story. \x27Abangan niyo ang susunod na kabanata! Wag bibitiw!\x27]",
   "[System: Silence. Check on the traffic or weather in a funny way. Ad-lib Manila context.]"]

/-- Idle threshold of the watchdog in milliseconds (line 129). -/
def IDLE_THRESHOLD_MS : Int := 6000

/-- One tick of the watchdog interval (lines 122-152).  `conn` is the React
`connected` flag, `cstat` is `client.status === 'connected'`, `now` is the
`Date.now()` used to compute the elapsed time, `now2` the `Date.now()` used
to reset the clock after a send, and `draw` the random index into the filler
catalog.  Returns the new state and the filler text sent, if any. -/
def watchdogTick (conn cstat : Bool) (now now2 : Int) (draw : Fin 5)
    (s : BridgeState) : BridgeState × Option String :=
  if !conn || !cstat then (s, none)
  else if s.queue.isEmpty && decide (IDLE_THRESHOLD_MS < now - s.lastActivity) &&
      !s.isProcessing then
    ({ s with lastActivity := now2 }, some (fillerSegments.getD draw.val ""))
  else (s, none)

/-- Environmental oracle for one run of `processQueueLoop`, sampled per
while-iteration `i`: the connection status check, the active voice style
(read from `voiceStyleRef`), the `Math.random() > 0.8` laugh draw, whether
`client.send` returns without throwing, and `Date.now()`. -/
structure LoopEnv where
  status : Nat → Bool
  style : Nat → VoiceStyle
  laughDraw : Nat → Bool
  sendOk : Nat → Bool
  time : Nat → Int

/-- Decoration of the head chunk in iteration `i` (lines 187-200): a laugh
cue is prefixed only for non-dialogue, non-markup text in the breathy style
when the random draw fires. -/
def scriptedOf (env : LoopEnv) (i : Nat) (rawText : String) : String :=
  if !isDialogueS rawText && !hasSSMLS rawText then
    if env.style i = VoiceStyle.breathy then
      if env.laughDraw i then "[laugh] " ++ rawText else rawText
    else rawText
  else rawText

/-- Result of the while loop of `processQueueLoop`: the remaining queue, the
activity clock, the texts sent in order, the raw chunk whose send threw (if
any), and the iteration index at which the loop stopped. -/
structure WhileRes where
  queue : List String
  lastAct : Int
  sends : List String
  failed : Option String
  iFinal : Nat
deriving DecidableEq, Repr

/-- The while loop of `processQueueLoop` (lines 183-234).  Each iteration
checks the connection, decorates the head, drops empty decorated text,
otherwise sends it, updates the activity clock and removes the head.  A
throwing send aborts the loop with the queue unchanged at that iteration
(the head had not yet been shifted: the shift on line 219 follows the send
on line 215). -/
def runWhile (env : LoopEnv) : List String → Nat → Int → WhileRes
  | [], i, act => ⟨[], act, [], none, i⟩
  | rawText :: rest, i, act =>
    if env.status i then
      let scripted := scriptedOf env i rawText
      if jsTrim scripted = "" then runWhile env rest (i + 1) act
      else if env.sendOk i then
        let r := runWhile env rest (i + 1) (env.time i)
        { r with sends := scripted :: r.sends }
      else ⟨rawText :: rest, act, [], some rawText, i⟩
    else ⟨rawText :: rest, act, [], none, i⟩

/-- Result of one invocation of `processQueueLoop`: the state after the
`finally` block, the sends, whether the pre-roll suspension was performed,
the chunk whose send threw (if any), whether the `finally` block scheduled a
re-trigger, and whether the guard admitted the body. -/
structure LoopResult where
  state : BridgeState
  sends : List String
  rolled : Bool
  failed : Option String
  retrig : Bool
  entered : Bool
deriving DecidableEq, Repr

/-- One invocation of `processQueueLoop` (lines 171-245).  If `isProcessing`
is held the call returns immediately; otherwise the flag is taken, the
pre-roll suspension runs and clears `shouldBuffer` if it was set, the while
loop runs, and the `finally` block releases the flag and schedules a
re-trigger when the queue is nonempty and the channel still connected.  A
throwing send is caught; it never escapes the invocation. -/
def processQueueLoop (env : LoopEnv) (s : BridgeState) : LoopResult :=
  if s.isProcessing then ⟨s, [], false, none, false, false⟩
  else
    let w := runWhile env s.queue 0 s.lastActivity
    ⟨{ s with queue := w.queue,
              lastActivity := w.lastAct,
              isProcessing := false,
              shouldBuffer := false },
     w.sends, s.shouldBuffer, w.failed,
     !w.queue.isEmpty && env.status w.iFinal, true⟩

/-- The re-entrancy guard at the top of `processQueueLoop` (lines 172-173),
the `tryStart()` of the specification: acquire `isProcessing` or return
immediately.  The `Bool` records whether a new loop body was admitted. -/
def tryStart (s : BridgeState) : BridgeState × Bool :=
  if s.isProcessing then (s, false)
  else ({ s with isProcessing := true }, true)

/-- Invoke `tryStart` a number of times in sequence (the single-threaded
interleaving of concurrent invocations), counting admitted loop bodies. -/
def tryStartN : Nat → BridgeState → BridgeState × Nat
  | 0, s => (s, 0)
  | Nat.succ n, s =>
    let p := tryStart s
    let q := tryStartN n p.1
    (q.1, (if p.2 then 1 else 0) + q.2)

/-- The `else if` arm of the auto-detection logic (lines 255-257): record a
supported source-language label as detected without switching the output
language. -/
def detectFromSource (data : EburonTTSCurrent) (s : BridgeState) : BridgeState :=
  match data.source_lang_label with
  | some sl =>
    if SUPPORTED_LANGUAGES.contains sl then { s with detectedLanguage := some sl }
    else s
  | none => s

/-- The auto-detection logic at the top of `processNewData` (lines 248-257).
A supported `target_language` differing from the current configuration
switches the language and marks it detected; otherwise a supported
`source_lang_label` is recorded as detected.  The empty string is never in
`SUPPORTED_LANGUAGES`, so JavaScript truthiness of the fields coincides with
the `contains` check. -/
def detectLanguage (data : EburonTTSCurrent) (s : BridgeState) : BridgeState :=
  match data.target_language with
  | some tl =>
    if SUPPORTED_LANGUAGES.contains tl then
      if s.language ≠ tl then
        { s with language := tl, detectedLanguage := some tl }
      else s
    else detectFromSource data s
  | none => detectFromSource data s

/-- The `textToRead` selection (lines 260-262): prefer `translated_text` when
its trim is nonempty, else `source_text`. -/
def chosenText (data : EburonTTSCurrent) : String :=
  match data.translated_text with
  | some tt => if 0 < (jsTrim tt).length then tt else data.source_text
  | none => data.source_text

/-- The ingestion handler `processNewData` (lines 247-280): run language
detection, select the text, drop empty text, drop duplicate ids, then record
the id, segment, enqueue and mark activity.  The returned `Bool` records
whether `processQueueLoop` was invoked (segments were enqueued). -/
def processNewData (now : Int) (data : EburonTTSCurrent) (s : BridgeState) :
    BridgeState × Bool :=
  let s1 := detectLanguage data s
  let t := chosenText data
  if t = "" then (s1, false)
  else if s1.lastProcessedId = some data.id then (s1, false)
  else
    let s2 := { s1 with lastProcessedId := some data.id }
    let segs := segmentText t
    if segs.isEmpty then (s2, false)
    else ({ s2 with queue := s2.queue ++ segs, lastActivity := now }, true)

/-- The reset block at the top of the main effect (lines 160-166), run on
every connection change: clear the queue, release the flag, reset the clock,
and arm the pre-roll buffer. -/
def connectReset (now : Int) (s : BridgeState) : BridgeState :=
  { s with queue := [],
           isProcessing := false,
           lastActivity := now,
           shouldBuffer := true }

/-- The events that can touch the bridge state within one connection: a
record delivery (poll tick or push notification, both funnel into
`processNewData`, which may synchronously trigger the loop), a standalone
loop invocation (a scheduled re-trigger), and a watchdog tick. -/
inductive BridgeEvent where
  | record : Int → EburonTTSCurrent → LoopEnv → BridgeEvent
  | loopRun : LoopEnv → BridgeEvent
  | tick : Bool → Bool → Int → Int → Fin 5 → BridgeEvent

/-- Effect of one event on the bridge state, together with the number of
pre-roll suspensions (0 or 1) performed during the event. -/
def stepEvent (e : BridgeEvent) (s : BridgeState) : BridgeState × Nat :=
  match e with
  | .record now data env =>
    let p := processNewData now data s
    if p.2 then
      let r := processQueueLoop env p.1
      (r.state, if r.rolled then 1 else 0)
    else (p.1, 0)
  | .loopRun env =>
    let r := processQueueLoop env s
    (r.state, if r.rolled then 1 else 0)
  | .tick conn cstat now now2 draw =>
    ((watchdogTick conn cstat now now2 draw s).1, 0)

/-- Run a sequence of events, accumulating the pre-roll count. -/
def runTrace : List BridgeEvent → BridgeState → BridgeState × Nat
  | [], s => (s, 0)
  | e :: es, s =>
    let p := stepEvent e s
    let q := runTrace es p.1
    (q.1, p.2 + q.2)

/-- Concrete input whose two sentences measure 80 and 100 characters after
trimming: the potential-length check of `segmentText` ignores the joining
space, so they are merged into a single 181-character chunk. -/
def longText : String :=
  String.mk (List.replicate 79 'a' ++ ['.', ' '] ++ List.replicate 99 'b' ++ ['.'])

/-- Loop oracle whose every send throws (connected, natural style, no laugh
draw). -/
def envSendFail : LoopEnv :=
  ⟨fun _ => true, fun _ => VoiceStyle.natural, fun _ => false,
   fun _ => false, fun _ => 0⟩

/-- Loop oracle whose every send succeeds (connected, natural style, no laugh
draw). -/
def envSendOk : LoopEnv :=
  ⟨fun _ => true, fun _ => VoiceStyle.natural, fun _ => false,
   fun _ => true, fun _ => 0⟩

/-- A bridge state with one queued chunk and the dispatch flag free. -/
def sHello : BridgeState :=
  ⟨["Hello."], false, false, 0, none, "Tagalog (Taglish)", none⟩

/-- A fresh record with plain source text. -/
def rFresh : EburonTTSCurrent :=
  ⟨1, none, "Hi.", none, none, none, none, ""⟩

/-- An idle bridge state that has processed nothing yet. -/
def sIdle : BridgeState :=
  ⟨[], false, true, 0, none, "Tagalog (Taglish)", none⟩

/-- A record that duplicates the last processed id but carries a supported
target language differing from the current configuration. -/
def rDup : EburonTTSCurrent :=
  ⟨5, none, "Hello.", none, none, none, some "English (US)", ""⟩

/-- A bridge state that has already processed id 5. -/
def sDup : BridgeState :=
  ⟨[], false, false, 0, some 5, "Tagalog (Taglish)", none⟩

/-- A record whose chosen text is nonempty whitespace: it passes the truthy
text check but segments into no chunks. -/
def rBlank : EburonTTSCurrent :=
  ⟨7, none, " ", none, none, none, none, ""⟩

/-- A bridge state that has not processed id 7. -/
def sBefore : BridgeState :=
  ⟨[], false, false, 0, none, "Tagalog (Taglish)", none⟩

/-! Helper lemmas about the JavaScript trim embedding. -/

theorem strLength_mk (l : List Char) : (String.mk l).length = l.length := rfl

theorem strLength_append (a b : String) : (a ++ b).length = a.length + b.length := by
  cases a with
  | mk x =>
    cases b with
    | mk y =>
      show (String.mk (x ++ y)).length = (String.mk x).length + (String.mk y).length
      simp [strLength_mk]

theorem trimChars_length_le (l : List Char) : (trimChars l).length ≤ l.length := by
  unfold trimChars
  exact le_trans (List.rdropWhile_prefix _ _).length_le
    (List.dropWhile_suffix _).length_le

theorem jsTrim_length_le (s : String) : (jsTrim s).length ≤ s.length := by
  cases s with
  | mk data => exact trimChars_length_le data

theorem dropWhile_cons_self {α : Type} {p : α → Bool} {x : α} {r : List α}
    (h : List.dropWhile p (x :: r) = x :: r) : p x = false := by
  by_contra hpx
  have hx : p x = true := by simpa using hpx
  rw [List.dropWhile_cons, if_pos hx] at h
  have hlen : (List.dropWhile p r).length ≤ r.length :=
    (List.dropWhile_suffix p).length_le
  rw [h] at hlen
  simp at hlen

theorem trimChars_idem (l : List Char) : trimChars (trimChars l) = trimChars l := by
  unfold trimChars
  have hdd : List.dropWhile isJsWS (List.dropWhile isJsWS l) =
      List.dropWhile isJsWS l := List.dropWhile_idempotent _ _
  have hpre : List.rdropWhile isJsWS (List.dropWhile isJsWS l) <+:
      List.dropWhile isJsWS l := List.rdropWhile_prefix _ _
  have hdK : List.dropWhile isJsWS
      (List.rdropWhile isJsWS (List.dropWhile isJsWS l)) =
      List.rdropWhile isJsWS (List.dropWhile isJsWS l) := by
    cases hB : List.rdropWhile isJsWS (List.dropWhile isJsWS l) with
    | nil => simp
    | cons x t =>
      rw [hB] at hpre
      obtain ⟨u, hu⟩ := hpre
      have hxA : List.dropWhile isJsWS (x :: (t ++ u)) = x :: (t ++ u) := by
        have : (x :: t) ++ u = x :: (t ++ u) := by simp
        rw [this] at hu
        rw [hu]
        exact hdd
      have hx : isJsWS x = false := dropWhile_cons_self hxA
      rw [List.dropWhile_cons, if_neg (by simp [hx])]
  rw [hdK]
  exact List.rdropWhile_idempotent _ _

theorem jsTrim_idem (s : String) : jsTrim (jsTrim s) = jsTrim s := by
  cases s with
  | mk data => simp [jsTrim, trimChars_idem]

/-! Chunk-fold invariant for the segmenter. -/

theorem flushed_good (L : List String) (cur : String) (h2 : 0 < cur.length)
    (hcur : cur = "" ∨ (∃ s ∈ L, cur = jsTrim s) ∨ cur.length ≤ HARD_LIMIT + 1) :
    (jsTrim cur).length ≤ HARD_LIMIT + 1 ∨ ∃ s ∈ L, jsTrim cur = jsTrim s := by
  rcases hcur with rfl | ⟨s, hs, hcs⟩ | hlen
  · exact absurd h2 (by decide)
  · exact Or.inr ⟨s, hs, by rw [hcs, jsTrim_idem]⟩
  · exact Or.inl (le_trans (jsTrim_length_le cur) hlen)

theorem chunk_fold_inv (L : List String) :
    ∀ (l : List String), (∀ x ∈ l, x ∈ L) →
    ∀ (chunks : List String) (cur : String),
    (∀ C ∈ chunks, C.length ≤ HARD_LIMIT + 1 ∨ ∃ s ∈ L, C = jsTrim s) →
    (cur = "" ∨ (∃ s ∈ L, cur = jsTrim s) ∨ cur.length ≤ HARD_LIMIT + 1) →
    (∀ C ∈ (List.foldl chunkStep (chunks, cur) l).1,
        C.length ≤ HARD_LIMIT + 1 ∨ ∃ s ∈ L, C = jsTrim s) ∧
    ((List.foldl chunkStep (chunks, cur) l).2 = "" ∨
     (∃ s ∈ L, (List.foldl chunkStep (chunks, cur) l).2 = jsTrim s) ∨
     (List.foldl chunkStep (chunks, cur) l).2.length ≤ HARD_LIMIT + 1) := by
  intro l
  induction l with
  | nil =>
    intro _ chunks cur hch hcur
    exact ⟨hch, hcur⟩
  | cons x xs ih =>
    intro hsub chunks cur hch hcur
    have hxL : x ∈ L := hsub x (by simp)
    have hxs : ∀ y ∈ xs, y ∈ L := fun y hy => hsub y (by simp [hy])
    rw [List.foldl_cons]
    have hflush : ∀ C ∈ chunks ++ [jsTrim cur], 0 < cur.length →
        C.length ≤ HARD_LIMIT + 1 ∨ ∃ s ∈ L, C = jsTrim s := by
      intro C hC h2
      rcases List.mem_append.mp hC with h | h
      · exact hch C h
      · have hCe : C = jsTrim cur := by simpa using h
        rw [hCe]
        exact flushed_good L cur h2 hcur
    by_cases h1 : jsTrim x = ""
    · have hstep : chunkStep (chunks, cur) x = (chunks, cur) := by
        simp [chunkStep, h1]
      rw [hstep]
      exact ih hxs chunks cur hch hcur
    · by_cases h2 : 0 < cur.length
      · by_cases h3 : isDialogueS (jsTrim x) = true
        · have hstep : chunkStep (chunks, cur) x =
              (chunks ++ [jsTrim cur], jsTrim x) := by
            simp [chunkStep, h1, h2, h3]
          rw [hstep]
          exact ih hxs _ _ (fun C hC => hflush C hC h2)
            (Or.inr (Or.inl ⟨x, hxL, rfl⟩))
        · by_cases h4 : HARD_LIMIT < cur.length + (jsTrim x).length
          · have hstep : chunkStep (chunks, cur) x =
                (chunks ++ [jsTrim cur], jsTrim x) := by
              simp [chunkStep, h1, h2, h3, h4]
            rw [hstep]
            exact ih hxs _ _ (fun C hC => hflush C hC h2)
              (Or.inr (Or.inl ⟨x, hxL, rfl⟩))
          · by_cases h5 : SOFT_LIMIT < cur.length
            · have hstep : chunkStep (chunks, cur) x =
                  (chunks ++ [jsTrim cur], jsTrim x) := by
                simp [chunkStep, h1, h2, h3, h4, h5]
              rw [hstep]
              exact ih hxs _ _ (fun C hC => hflush C hC h2)
                (Or.inr (Or.inl ⟨x, hxL, rfl⟩))
            · have hstep : chunkStep (chunks, cur) x =
                  (chunks, cur ++ " " ++ jsTrim x) := by
                simp [chunkStep, h1, h2, h3, h4, h5]
              rw [hstep]
              refine ih hxs _ _ hch (Or.inr (Or.inr ?_))
              have hlen : (cur ++ " " ++ jsTrim x).length =
                  cur.length + 1 + (jsTrim x).length := by
                rw [strLength_append, strLength_append]
                rfl
              rw [hlen]
              simp only [HARD_LIMIT] at h4 ⊢
              omega
      · have hstep : chunkStep (chunks, cur) x = (chunks, jsTrim x) := by
          simp [chunkStep, h1, h2]
        rw [hstep]
        exact ih hxs _ _ hch (Or.inr (Or.inl ⟨x, hxL, rfl⟩))

theorem chunkSentences_good (L : List String) (C : String)
    (hC : C ∈ chunkSentences L) :
    C.length ≤ HARD_LIMIT + 1 ∨ ∃ s ∈ L, C = jsTrim s := by
  have h := chunk_fold_inv L L (fun x hx => hx) [] "" (by simp) (Or.inl rfl)
  simp only [chunkSentences] at hC
  split at hC
  · exact h.1 C hC
  · rcases List.mem_append.mp hC with hmem | hmem
    · exact h.1 C hmem
    · have hCe : C = jsTrim (List.foldl chunkStep ([], "") L).2 := by
        simpa using hmem
      rcases h.2 with hnil | ⟨s, hs, hcs⟩ | hlen
      · rename_i hne
        rw [hnil] at hne
        exact absurd (by decide : jsTrim "" = "") hne
      · rw [hCe, hcs, jsTrim_idem]
        exact Or.inr ⟨s, hs, rfl⟩
      · rw [hCe]
        exact Or.inl (le_trans (jsTrim_length_le _) hlen)

/-- C2 (amended): every chunk produced by `segmentText` either has length at
most `HARD_LIMIT + 1` — one more than the hard limit, because the
potential-length check on line 73 omits the single joining space added on
line 87 — or is a single input sentence after the per-chunk trimming the
fold applies.  The bound `HARD_LIMIT` itself, as the original claim states
it, is violated (see the counterexample theorem). -/
theorem segmentText_chunk_bound (text C : String) (hC : C ∈ segmentText text) :
    C.length ≤ HARD_LIMIT + 1 ∨ ∃ s ∈ sentencesOf text, C = jsTrim s := by
  unfold segmentText at hC
  split at hC
  · exact absurd hC (by simp)
  · exact chunkSentences_good _ C hC

/-- C2 witness: the single-sentence input is its own chunk and satisfies
the bound. -/
theorem segmentText_chunk_bound_witness :
    ("Hi there." ∈ segmentText "Hi there.") ∧
    (("Hi there." : String).length ≤ HARD_LIMIT + 1 ∨
      ∃ s ∈ sentencesOf "Hi there.", ("Hi there." : String) = jsTrim s) :=
  ⟨by decide, segmentText_chunk_bound "Hi there." "Hi there." (by decide)⟩

set_option maxRecDepth 100000 in
/-- C2 counterexample: `longText` consists of a trimmed 80-character sentence
followed by a trimmed 100-character sentence; the fold appends them with a
joining space into a single 181-character chunk, which exceeds `HARD_LIMIT`
and is not equal to any single input sentence (verbatim or trimmed). -/
theorem segmentText_hard_limit_violated :
    ∃ C ∈ segmentText longText, HARD_LIMIT < C.length ∧
      ∀ s ∈ sentencesOf longText, C ≠ s ∧ C ≠ jsTrim s := by decide

/-- C9: a sentence beginning a new dialogue speaker forces a chunk flush.
On the input of the claim the segmenter produces at least two chunks and the
second chunk starts exactly at the speaker sentence. -/
theorem segmentText_speaker_flush :
    2 ≤ (segmentText "Hello there. Maria: I am here.").length ∧
    List.isPrefixOf ("Maria: I am here.").data
      ((segmentText "Hello there. Maria: I am here.").getD 1 "").data = true := by
  decide

/-! Watchdog, guard and loop theorems. -/

/-- C3: a watchdog tick sends a filler directive if and only if the channel
is connected (both the React flag and the client status), the queue is empty,
the elapsed time since the activity clock exceeds the idle threshold, and the
dispatch loop is not processing; in that case exactly one filler (the drawn
catalog entry) is sent and the activity clock is reset to the current time,
and otherwise the state is unchanged and nothing is sent.  In particular a
tick with a nonempty queue never sends a filler. -/
theorem watchdogTick_spec (conn cstat : Bool) (now now2 : Int) (draw : Fin 5)
    (s : BridgeState) :
    watchdogTick conn cstat now now2 draw s =
      if conn = true ∧ cstat = true ∧ s.queue = [] ∧
          IDLE_THRESHOLD_MS < now - s.lastActivity ∧ s.isProcessing = false
      then ({ s with lastActivity := now2 }, some (fillerSegments.getD draw.val ""))
      else (s, none) := by
  by_cases hq : s.queue = []
  all_goals by_cases ht : IDLE_THRESHOLD_MS < now - s.lastActivity
  all_goals cases conn
  all_goals cases cstat
  all_goals cases hp : s.isProcessing
  all_goals simp [watchdogTick, hq, ht, hp, List.isEmpty_iff]

/-- C1: the re-entrancy guard makes `tryStart` idempotent.  Invoking it any
number of times from a state in which the loop is already running
(`isProcessing` true) leaves the state unchanged and admits zero new loop
bodies — the one already-active body stays the only one; from an idle state
a positive number of invocations admits exactly one body. -/
theorem tryStart_idempotent (n : Nat) (s : BridgeState) :
    tryStartN n s =
      if s.isProcessing = true then (s, 0)
      else if n = 0 then (s, 0)
      else ({ s with isProcessing := true }, 1) := by
  have busy : ∀ (m : Nat) (u : BridgeState), u.isProcessing = true →
      tryStartN m u = (u, 0) := by
    intro m
    induction m with
    | zero => intro u _; rfl
    | succ k ih =>
      intro u hu
      have hts : tryStart u = (u, false) := by simp [tryStart, hu]
      simp [tryStartN, hts, ih u hu]
  by_cases hp : s.isProcessing = true
  · rw [if_pos hp]
    exact busy n s hp
  · rw [if_neg hp]
    have hpf : s.isProcessing = false := by simpa using hp
    cases n with
    | zero => rfl
    | succ k =>
      have hts : tryStart s = ({ s with isProcessing := true }, true) := by
        simp [tryStart, hpf]
      have hbusy : tryStartN k { s with isProcessing := true } =
          ({ s with isProcessing := true }, 0) := busy k _ rfl
      simp [tryStartN, hts, hbusy]

/-- C5: for every execution of the dispatch loop body from an idle state —
including executions in which the send to the downstream channel throws
(`env.sendOk` false at some iteration) — the mutual-exclusion flag is false
after the invocation returns (the `finally` path always releases it), and a
subsequent invocation is admitted by the guard, so an enqueue or watchdog
trigger can restart the loop.  The run is a total function: the caught
exception is returned as the `failed` datum and never propagates. -/
theorem loop_flag_released (env env2 : LoopEnv) (s : BridgeState)
    (h : s.isProcessing = false) :
    (processQueueLoop env s).state.isProcessing = false ∧
    (processQueueLoop env2 (processQueueLoop env s).state).entered = true := by
  have h1 : (processQueueLoop env s).state.isProcessing = false := by
    simp [processQueueLoop, h]
  refine ⟨h1, ?_⟩
  generalize hst : (processQueueLoop env s).state = st at h1
  simp [processQueueLoop, h1]

/-- C5 witness: a concrete run whose only send throws still releases the
flag and admits a restart. -/
theorem loop_flag_released_witness :
    (sHello.isProcessing = false ∧
     (processQueueLoop envSendFail sHello).failed = some "Hello.") ∧
    ((processQueueLoop envSendFail sHello).state.isProcessing = false ∧
     (processQueueLoop envSendFail
        (processQueueLoop envSendFail sHello).state).entered = true) :=
  ⟨⟨rfl, by decide⟩, loop_flag_released envSendFail envSendFail sHello rfl⟩

theorem runWhile_failed_head (env : LoopEnv) :
    ∀ (q : List String) (i : Nat) (act : Int) (c : String),
      (runWhile env q i act).failed = some c →
      ∃ tl, (runWhile env q i act).queue = c :: tl := by
  intro q
  induction q with
  | nil =>
    intro i act c h
    simp [runWhile] at h
  | cons x xs ih =>
    intro i act c h
    rw [runWhile] at h ⊢
    by_cases hst : env.status i = true
    · rw [if_pos hst] at h ⊢
      by_cases hemp : jsTrim (scriptedOf env i x) = ""
      · rw [if_pos hemp] at h ⊢
        exact ih _ _ _ h
      · rw [if_neg hemp] at h ⊢
        by_cases hok : env.sendOk i = true
        · rw [if_pos hok] at h ⊢
          exact ih _ _ _ h
        · rw [if_neg hok] at h ⊢
          simp at h
          exact ⟨xs, by rw [h]⟩
    · rw [if_neg hst] at h
      simp at h

theorem scriptedOf_no_draw (env : LoopEnv) (i : Nat) (raw : String)
    (h : env.laughDraw i = false) : scriptedOf env i raw = raw := by
  unfold scriptedOf
  rw [h]
  split_ifs <;> simp_all

/-- C10: dispatch of a chunk is atomic with respect to the queue on send
failure.  The head is removed only after `client.send` returns (line 219
follows line 215), so when a send throws, the failing chunk is still at the
front of the resulting queue, and a restarted loop run whose first send
succeeds (with the laugh draw not firing, so the text is undecorated)
dispatches exactly that chunk first — it is not lost. -/
theorem send_failure_atomic (env env2 : LoopEnv) (s : BridgeState) (c : String)
    (hf : (processQueueLoop env s).failed = some c)
    (h2s : env2.status 0 = true) (h2ok : env2.sendOk 0 = true)
    (h2d : env2.laughDraw 0 = false) (hct : jsTrim c ≠ "") :
    (∃ tl, (processQueueLoop env s).state.queue = c :: tl) ∧
    (processQueueLoop env2 (processQueueLoop env s).state).sends.head? = some c := by
  by_cases hp : s.isProcessing = true
  · simp [processQueueLoop, hp] at hf
  · have hpf : s.isProcessing = false := by simpa using hp
    have hwf : (runWhile env s.queue 0 s.lastActivity).failed = some c := by
      simpa [processQueueLoop, hpf] using hf
    obtain ⟨tl, htl⟩ := runWhile_failed_head env s.queue 0 s.lastActivity c hwf
    have hq : (processQueueLoop env s).state.queue = c :: tl := by
      simp [processQueueLoop, hpf, htl]
    have hp2 : (processQueueLoop env s).state.isProcessing = false := by
      simp [processQueueLoop, hpf]
    refine ⟨⟨tl, hq⟩, ?_⟩
    generalize hst : (processQueueLoop env s).state = st at hq hp2
    have hsends : (processQueueLoop env2 st).sends =
        (runWhile env2 st.queue 0 st.lastActivity).sends := by
      simp [processQueueLoop, hp2]
    rw [hsends, hq, runWhile, if_pos h2s, scriptedOf_no_draw env2 0 c h2d,
      if_neg hct, if_pos h2ok]
    simp

/-- C10 witness: a concrete failing run leaves the chunk at the head, and a
successful rerun sends it first. -/
theorem send_failure_atomic_witness :
    ((processQueueLoop envSendFail sHello).failed = some "Hello." ∧
     envSendOk.status 0 = true ∧ envSendOk.sendOk 0 = true ∧
     envSendOk.laughDraw 0 = false ∧ jsTrim "Hello." ≠ "") ∧
    ((∃ tl, (processQueueLoop envSendFail sHello).state.queue = "Hello." :: tl) ∧
     (processQueueLoop envSendOk
        (processQueueLoop envSendFail sHello).state).sends.head? = some "Hello.") :=
  ⟨⟨by decide, rfl, rfl, rfl, by decide⟩,
   send_failure_atomic envSendFail envSendOk sHello "Hello."
     (by decide) rfl rfl rfl (by decide)⟩

/-! Ingestion lemmas. -/

theorem detectLanguage_frame (r : EburonTTSCurrent) (s : BridgeState) :
    (detectLanguage r s).queue = s.queue ∧
    (detectLanguage r s).lastProcessedId = s.lastProcessedId ∧
    (detectLanguage r s).lastActivity = s.lastActivity ∧
    (detectLanguage r s).isProcessing = s.isProcessing ∧
    (detectLanguage r s).shouldBuffer = s.shouldBuffer := by
  unfold detectLanguage detectFromSource
  cases r.target_language <;> cases r.source_lang_label <;>
    dsimp only <;> (try split_ifs) <;> simp

theorem processNewData_dup (now : Int) (r : EburonTTSCurrent) (s : BridgeState)
    (hid : s.lastProcessedId = some r.id) :
    processNewData now r s = (detectLanguage r s, false) := by
  unfold processNewData
  by_cases ht : chosenText r = ""
  · rw [if_pos ht]
  · rw [if_neg ht, if_pos (by rw [(detectLanguage_frame r s).2.1, hid])]

theorem processNewData_fresh (now : Int) (r : EburonTTSCurrent) (s : BridgeState)
    (hid : s.lastProcessedId ≠ some r.id) (ht : chosenText r ≠ "") :
    (processNewData now r s).1.queue = s.queue ++ segmentText (chosenText r) ∧
    (processNewData now r s).1.lastProcessedId = some r.id := by
  obtain ⟨hfq, hfid, -, -, -⟩ := detectLanguage_frame r s
  unfold processNewData
  rw [if_neg ht, if_neg (by rw [hfid]; exact hid)]
  by_cases hseg : (segmentText (chosenText r)).isEmpty = true
  · rw [if_pos hseg]
    have : segmentText (chosenText r) = [] := by simpa using hseg
    simp [this, hfq]
  · rw [if_neg hseg]
    simp [hfq]

/-- C6: delivering the same record twice in succession enqueues its segmented
chunks exactly once; the second delivery with the same id adds nothing to the
queue. -/
theorem dedup_enqueue_once (n1 n2 : Int) (r : EburonTTSCurrent)
    (s : BridgeState) (hid : s.lastProcessedId ≠ some r.id)
    (ht : chosenText r ≠ "") :
    (processNewData n1 r s).1.queue = s.queue ++ segmentText (chosenText r) ∧
    (processNewData n2 r (processNewData n1 r s).1).1.queue =
      (processNewData n1 r s).1.queue := by
  obtain ⟨hq1, hid1⟩ := processNewData_fresh n1 r s hid ht
  refine ⟨hq1, ?_⟩
  rw [processNewData_dup n2 r _ hid1]
  exact (detectLanguage_frame r _).1

/-- C6 witness: a fresh record is enqueued once; redelivery adds nothing. -/
theorem dedup_enqueue_once_witness :
    (sIdle.lastProcessedId ≠ some rFresh.id ∧ chosenText rFresh ≠ "") ∧
    ((processNewData 0 rFresh sIdle).1.queue =
        sIdle.queue ++ segmentText (chosenText rFresh) ∧
     (processNewData 0 rFresh (processNewData 0 rFresh sIdle).1).1.queue =
        (processNewData 0 rFresh sIdle).1.queue) :=
  ⟨⟨by decide, by decide⟩,
   dedup_enqueue_once 0 0 rFresh sIdle (by decide) (by decide)⟩

/-- C7 (amended): a duplicate record (id equal to the last processed id) is
absorbed without enqueueing chunks, without touching the activity clock and
without touching the last-processed id — but the auto-detection logic runs
before the dedup check (lines 248-257 precede line 267), so the resulting
state is exactly `detectLanguage` applied to the current state: a duplicate
carrying a supported `target_language` that differs from the current
configuration does change the language configuration. -/
theorem duplicate_absorbed_after_detection (now : Int) (r : EburonTTSCurrent)
    (s : BridgeState) (hid : s.lastProcessedId = some r.id) :
    (processNewData now r s).2 = false ∧
    (processNewData now r s).1.queue = s.queue ∧
    (processNewData now r s).1.lastActivity = s.lastActivity ∧
    (processNewData now r s).1.lastProcessedId = s.lastProcessedId ∧
    (processNewData now r s).1 = detectLanguage r s := by
  obtain ⟨hfq, hfid, hfact, -, -⟩ := detectLanguage_frame r s
  rw [processNewData_dup now r s hid]
  exact ⟨rfl, hfq, hfact, hfid, rfl⟩

/-- C7 witness: a duplicate delivery leaves queue, clock and dedup id
untouched. -/
theorem duplicate_absorbed_after_detection_witness :
    (sDup.lastProcessedId = some rDup.id) ∧
    ((processNewData 0 rDup sDup).2 = false ∧
     (processNewData 0 rDup sDup).1.queue = sDup.queue ∧
     (processNewData 0 rDup sDup).1.lastActivity = sDup.lastActivity ∧
     (processNewData 0 rDup sDup).1.lastProcessedId = sDup.lastProcessedId ∧
     (processNewData 0 rDup sDup).1 = detectLanguage rDup sDup) :=
  ⟨by decide, duplicate_absorbed_after_detection 0 rDup sDup (by decide)⟩

/-- C7 counterexample: the claim that a duplicate delivery has no observable
effect is false — a duplicate whose `target_language` is supported and
differs from the current configuration switches the language and the
detected language, because detection precedes the dedup check. -/
theorem duplicate_changes_language :
    sDup.lastProcessedId = some rDup.id ∧
    (processNewData 0 rDup sDup).1.language ≠ sDup.language ∧
    (processNewData 0 rDup sDup).1.detectedLanguage ≠ sDup.detectedLanguage := by
  decide

/-- C8 (amended): the last-processed id is updated for every non-duplicate
record with nonempty chosen text, immediately after the dedup check (line
271) and before segmentation — regardless of whether segmentation produces
any chunks, so an identical redelivery is dropped as a duplicate rather than
retried. -/
theorem id_updated_before_segmentation (now : Int) (r : EburonTTSCurrent)
    (s : BridgeState) (hid : s.lastProcessedId ≠ some r.id)
    (ht : chosenText r ≠ "") :
    (processNewData now r s).1.lastProcessedId = some r.id :=
  (processNewData_fresh now r s hid ht).2

/-- C8 witness: a fresh whitespace-text record still advances the id. -/
theorem id_updated_before_segmentation_witness :
    (sBefore.lastProcessedId ≠ some rBlank.id ∧ chosenText rBlank ≠ "") ∧
    (processNewData 0 rBlank sBefore).1.lastProcessedId = some rBlank.id :=
  ⟨⟨by decide, by decide⟩,
   id_updated_before_segmentation 0 rBlank sBefore (by decide) (by decide)⟩

/-- C8 counterexample: the claim that the id is updated only after chunks
were produced and enqueued is false — a record whose chosen text is a single
space passes the truthy-text check, segments into no chunks, enqueues
nothing, yet the last-processed id is advanced from `none` to its id. -/
theorem id_updated_without_chunks :
    sBefore.lastProcessedId ≠ some rBlank.id ∧
    segmentText (chosenText rBlank) = [] ∧
    (processNewData 0 rBlank sBefore).1.queue = sBefore.queue ∧
    (processNewData 0 rBlank sBefore).1.lastProcessedId = some rBlank.id := by
  decide

/-! Pre-roll trace lemmas. -/

theorem processNewData_flags (now : Int) (r : EburonTTSCurrent)
    (s : BridgeState) :
    (processNewData now r s).1.shouldBuffer = s.shouldBuffer ∧
    (processNewData now r s).1.isProcessing = s.isProcessing := by
  obtain ⟨-, -, -, hip, hsb⟩ := detectLanguage_frame r s
  unfold processNewData
  dsimp only
  split_ifs <;> simp [hip, hsb]

theorem watchdogTick_sb (conn cstat : Bool) (now now2 : Int) (draw : Fin 5)
    (s : BridgeState) :
    (watchdogTick conn cstat now now2 draw s).1.shouldBuffer = s.shouldBuffer := by
  unfold watchdogTick
  split_ifs <;> simp

theorem loop_sb_roll (env : LoopEnv) (u : BridgeState) :
    ((processQueueLoop env u).state.shouldBuffer = true → u.shouldBuffer = true) ∧
    ((if (processQueueLoop env u).rolled then 1 else 0) =
      if (processQueueLoop env u).state.shouldBuffer = true then 0
      else if u.shouldBuffer = true then 1 else 0) := by
  unfold processQueueLoop
  by_cases hip : u.isProcessing = true
  · rw [if_pos hip]
    refine ⟨fun h => h, ?_⟩
    cases hu : u.shouldBuffer <;> simp [hu]
  · rw [if_neg hip]
    refine ⟨fun h => by simp at h, ?_⟩
    cases hu : u.shouldBuffer <;> simp [hu]

theorem stepEvent_sb (e : BridgeEvent) (s : BridgeState) :
    ((stepEvent e s).1.shouldBuffer = true → s.shouldBuffer = true) ∧
    ((stepEvent e s).2 =
      if (stepEvent e s).1.shouldBuffer = true then 0
      else if s.shouldBuffer = true then 1 else 0) := by
  cases e with
  | record now data env =>
    obtain ⟨hsb, hip⟩ := processNewData_flags now data s
    by_cases hp2 : (processNewData now data s).2 = true
    · obtain ⟨hmono, hroll⟩ := loop_sb_roll env (processNewData now data s).1
      rw [hsb] at hmono hroll
      refine ⟨?_, ?_⟩
      · intro h
        apply hmono
        simpa [stepEvent, hp2] using h
      · simpa [stepEvent, hp2] using hroll
    · have hp2f : (processNewData now data s).2 = false := by simpa using hp2
      refine ⟨?_, ?_⟩
      · intro h
        rw [← hsb]
        simpa [stepEvent, hp2f] using h
      · cases hu : s.shouldBuffer <;>
          simp [stepEvent, hp2f, hsb, hu]
  | loopRun env =>
    obtain ⟨hmono, hroll⟩ := loop_sb_roll env s
    exact ⟨hmono, hroll⟩
  | tick conn cstat now now2 draw =>
    have hsb := watchdogTick_sb conn cstat now now2 draw s
    refine ⟨?_, ?_⟩
    · intro h
      rw [← hsb]
      simpa [stepEvent] using h
    · cases hu : s.shouldBuffer <;> simp [stepEvent, hsb, hu]

theorem runTrace_sb_mono :
    ∀ (es : List BridgeEvent) (s : BridgeState),
      (runTrace es s).1.shouldBuffer = true → s.shouldBuffer = true := by
  intro es
  induction es with
  | nil => intro s h; exact h
  | cons e es ih =>
    intro s h
    exact (stepEvent_sb e s).1 (ih _ h)

theorem runTrace_roll (es : List BridgeEvent) (s : BridgeState) :
    (runTrace es s).2 =
      if (runTrace es s).1.shouldBuffer = true then 0
      else if s.shouldBuffer = true then 1 else 0 := by
  induction es generalizing s with
  | nil => cases hu : s.shouldBuffer <;> simp [runTrace, hu]
  | cons e es ih =>
    obtain ⟨hmono, hroll⟩ := stepEvent_sb e s
    show (stepEvent e s).2 + (runTrace es (stepEvent e s).1).2 = _
    rw [hroll, ih (stepEvent e s).1]
    by_cases hF : (runTrace es (stepEvent e s).1).1.shouldBuffer = true
    · have hS1 : (stepEvent e s).1.shouldBuffer = true := runTrace_sb_mono es _ hF
      have hs : s.shouldBuffer = true := hmono hS1
      simp [runTrace, hF, hS1, hs]
    · by_cases hS1 : (stepEvent e s).1.shouldBuffer = true
      · have hs : s.shouldBuffer = true := hmono hS1
        simp [runTrace, hF, hS1, hs]
      · simp [runTrace, hF, hS1]

/-- C4: within a single connection lifetime the pre-roll suspension occurs
exactly once.  `connectReset` arms `shouldPreRollBuffer` (the
`shouldBufferRef`); no event of the connection (record ingestion, loop run,
watchdog tick) ever re-arms it; and the first loop body to run consumes it.
Over every event sequence the total number of pre-roll suspensions equals one
exactly when the flag has been consumed (a loop body ran), and in all cases
is at most one — even if the queue empties and refills repeatedly. -/
theorem preroll_once_per_connection (t : Int) (s : BridgeState)
    (es : List BridgeEvent) :
    (runTrace es (connectReset t s)).2 =
      (if (runTrace es (connectReset t s)).1.shouldBuffer = true then 0 else 1) ∧
    (runTrace es (connectReset t s)).2 ≤ 1 := by
  have h := runTrace_roll es (connectReset t s)
  have hsb : (connectReset t s).shouldBuffer = true := rfl
  rw [hsb] at h
  refine ⟨by simpa using h, ?_⟩
  rw [h]
  split <;> simp
